import Mathlib

/-!
Shallow embedding of merge-gatekeeper's status validator
(`internal/validators/status/validator.go`).

The Go code fetches two lists from the GitHub client — combined-status
entries and check-run entries — normalizes them into `ghaStatus` records,
and decides overall success.  Here the client is represented by the two
fetched lists themselves (transport errors are out of scope of the claims);
Go nil-string-pointers become `Option String`, and the nil-pointer
dereference of `*run.Conclusion` (a Go panic) is made explicit as a
distinguished `panicNilConclusion` outcome.
-/

/-- `successState` constant of the source. -/
def successState : String := "success"

/-- `errorState` constant of the source. -/
def errorState : String := "error"

/-- `pendingState` constant of the source. -/
def pendingState : String := "pending"

/-- `checkRunCompletedStatus` constant of the source. -/
def checkRunCompletedStatus : String := "completed"

/-- `checkRunNeutralConclusion` constant of the source. -/
def checkRunNeutralConclusion : String := "neutral"

/-- `checkRunSuccessConclusion` constant of the source. -/
def checkRunSuccessConclusion : String := "success"

/-- One entry of the combined-status response (`combined.Statuses` in the
source): `Context` and `State` are string pointers upstream, hence
`Option String` here. -/
structure RepoStatus where
  context : Option String
  state : Option String
  deriving DecidableEq

/-- One entry of the check-run response (`runResult.CheckRuns` in the
source): `Name`, `Status` and `Conclusion` are string pointers upstream. -/
structure CheckRun where
  name : Option String
  status : Option String
  conclusion : Option String
  deriving DecidableEq

/-- `ghaStatus` struct of the source: one normalized job record. -/
structure ghaStatus where
  Job : String
  State : String
  deriving DecidableEq

/-- Modelled from the spec: the `status` struct (the ValidationResult of the
spec, §3) is declared outside the file under verification; its three fields
are fully determined by their uses in `Validate`. -/
structure status where
  totalJobs : List String
  completeJobs : List String
  succeeded : Bool
  deriving DecidableEq

/-- Outcome of `listGhaStatuses`: either the normalized job list, one of the
two tagged errors (carrying the observed field values, as the Go
`fmt.Errorf` does), or the Go runtime panic raised by dereferencing a nil
`Conclusion` pointer of a completed check run. -/
inductive FetchOutcome where
  | ok : List ghaStatus → FetchOutcome
  | errCombined : Option String → Option String → FetchOutcome
  | errCheckRun : Option String → Option String → FetchOutcome
  | panicNilConclusion : String → FetchOutcome
  deriving DecidableEq

/-- Outcome of `Validate`: a `status` result, or the error/panic propagated
from `listGhaStatuses` (in Go: `nil, err` — no partial result). -/
inductive ValidateOutcome where
  | ok : status → ValidateOutcome
  | errCombined : Option String → Option String → ValidateOutcome
  | errCheckRun : Option String → Option String → ValidateOutcome
  | panicNilConclusion : String → ValidateOutcome
  deriving DecidableEq

/-- The loop over `combined.Statuses` in `listGhaStatuses` (source lines
130–139): each entry must carry both `Context` and `State`, else the fetch
fails with `ErrInvalidCombinedStatusResponse` carrying the observed values;
present entries map 1:1 to `ghaStatus` records in order. -/
def combinedLoop : List RepoStatus → FetchOutcome
  | [] => .ok []
  | s :: rest =>
    match s.context, s.state with
    | some c, some st =>
      match combinedLoop rest with
      | .ok l => .ok ({ Job := c, State := st } :: l)
      | e => e
    | _, _ => .errCombined s.context s.state

/-- Per-run result of the check-run loop body. -/
inductive RunResult where
  | ok : ghaStatus → RunResult
  | err : Option String → Option String → RunResult
  | panic : String → RunResult
  deriving DecidableEq

/-- Body of the loop over `runResult.CheckRuns` (source lines 146–166):
missing `Name` or `Status` is the tagged check-run error; a status other
than `"completed"` maps to `pending` without looking at the conclusion; a
completed run dereferences `*run.Conclusion` — a nil conclusion is a Go
nil-pointer panic, made explicit here — and maps `neutral`/`success` to
`success`, every other conclusion to `error`. -/
def normalizeRun (run : CheckRun) : RunResult :=
  match run.name, run.status with
  | some n, some st =>
    if st ≠ checkRunCompletedStatus then
      .ok { Job := n, State := pendingState }
    else
      match run.conclusion with
      | none => .panic n
      | some concl =>
        if concl = checkRunNeutralConclusion ∨ concl = checkRunSuccessConclusion then
          .ok { Job := n, State := successState }
        else
          .ok { Job := n, State := errorState }
  | _, _ => .err run.name run.status

/-- The loop over `runResult.CheckRuns` of `listGhaStatuses`, appending each
normalized run in order and aborting at the first malformed run (or at the
first nil-conclusion dereference). -/
def runsLoop : List CheckRun → FetchOutcome
  | [] => .ok []
  | run :: rest =>
    match normalizeRun run with
    | .ok g =>
      match runsLoop rest with
      | .ok l => .ok (g :: l)
      | e => e
    | .err n s => .errCheckRun n s
    | .panic n => .panicNilConclusion n

/-- `listGhaStatuses` (source lines 124–169): combined-status entries first,
then check-run entries, concatenated in upstream order. -/
def listGhaStatuses (combined : List RepoStatus) (runs : List CheckRun) : FetchOutcome :=
  match combinedLoop combined with
  | .ok l1 =>
    match runsLoop runs with
    | .ok l2 => .ok (l1 ++ l2)
    | .errCombined c s => .errCombined c s
    | .errCheckRun n s => .errCheckRun n s
    | .panicNilConclusion n => .panicNilConclusion n
  | e => e

/-- The partition loop of `Validate` (source lines 101–114), returning
(`totalJobs`, `completeJobs`, `successCnt`): a self-named job only bumps
`successCnt`; any other job goes to `totalJobs`, and also to `completeJobs`
with a `successCnt` bump when its state is `success`. -/
def validateLoop (selfJobName : String) : List ghaStatus → List String × List String × Nat
  | [] => ([], [], 0)
  | g :: rest =>
    let r := validateLoop selfJobName rest
    if g.Job = selfJobName then
      (r.1, r.2.1, r.2.2 + 1)
    else if g.State = successState then
      (g.Job :: r.1, g.Job :: r.2.1, r.2.2 + 1)
    else
      (g.Job :: r.1, r.2.1, r.2.2)

/-- Assembly of the `status` result in `Validate` (source lines 95–121):
`succeeded` starts `true` and is cleared iff `len(ghaStatuses) != successCnt`,
i.e. it equals `len(ghaStatuses) == successCnt`. -/
def buildStatus (selfJobName : String) (ghaStatuses : List ghaStatus) : status :=
  let r := validateLoop selfJobName ghaStatuses
  { totalJobs := r.1
    completeJobs := r.2.1
    succeeded := ghaStatuses.length == r.2.2 }

/-- `Validate` (source lines 89–122): on a fetch error (or panic) the error
is surfaced with no result; otherwise the assembled `status` is returned. -/
def Validate (selfJobName : String) (combined : List RepoStatus)
    (runs : List CheckRun) : ValidateOutcome :=
  match listGhaStatuses combined runs with
  | .ok l => .ok (buildStatus selfJobName l)
  | .errCombined c s => .errCombined c s
  | .errCheckRun n s => .errCheckRun n s
  | .panicNilConclusion n => .panicNilConclusion n

/-- The per-entry translation performed by the combined-status loop:
`some` of the normalized record when both fields are present, `none`
otherwise (the loop then aborts). -/
def mapCombinedEntry (s : RepoStatus) : Option ghaStatus :=
  match s.context, s.state with
  | some c, some st => some { Job := c, State := st }
  | _, _ => none

/-- The per-entry translation performed by the check-run loop: `some` of the
normalized record when `normalizeRun` yields one, `none` on the error and
panic paths (the loop then aborts). -/
def mapRunEntry (r : CheckRun) : Option ghaStatus :=
  match normalizeRun r with
  | .ok g => some g
  | _ => none

/-- Whether a `Validate` outcome is one of the two tagged fetch errors. -/
def ValidateOutcome.isTaggedError : ValidateOutcome → Bool
  | .errCombined _ _ => true
  | .errCheckRun _ _ => true
  | _ => false

/-- `statusValidator` struct of the source; the `github.Client` field is
abstracted to its only property `validateFields` inspects: being nil or
not. -/
structure statusValidator where
  repo : String
  owner : String
  ref : String
  selfJobName : String
  clientPresent : Bool
  deriving DecidableEq

/-- Modelled from the spec: the functional `Option` type (§4.1, §9) lives
outside the file under verification; per the spec each option is a mutation
applied in sequence to the zero-valued instance. -/
def SVOption : Type := statusValidator → statusValidator

/-- `validateFields` (source lines 63–87): collects one message per violated
condition, in source order, via the `multierror.Errors` slice (modelled, per
spec §9, as the ordered list of its messages). -/
def validateFields (sv : statusValidator) : List String :=
  (if sv.repo.length = 0 then ["repository name is empty"] else [])
    ++ (if sv.owner.length = 0 then ["repository owner is empty"] else [])
    ++ (if sv.ref.length = 0 then ["reference of repository is empty"] else [])
    ++ (if sv.selfJobName.length = 0 then ["self job name is empty"] else [])
    ++ (if sv.clientPresent = false then ["github client is empty"] else [])

/-- The option-application prelude of `CreateValidator` (source lines
47–52): a zero-valued instance holding the client, mutated by each option in
order. -/
def applyOptions (clientPresent : Bool) (opts : List SVOption) : statusValidator :=
  opts.foldl (fun sv opt => opt sv)
    { repo := "", owner := "", ref := "", selfJobName := ""
      clientPresent := clientPresent }

/-- `CreateValidator` (source lines 46–57): after the options are applied,
`validateFields` either rejects construction with the collected violations
or the validator is returned. -/
def CreateValidator (clientPresent : Bool) (opts : List SVOption) :
    Except (List String) statusValidator :=
  match validateFields (applyOptions clientPresent opts) with
  | [] => .ok (applyOptions clientPresent opts)
  | errs => .error errs

/-! ### Helper lemmas about the partition loop of `Validate` -/

/-- `successCnt` counts exactly the jobs that are self-named or in state
`success`. -/
lemma validateLoop_cnt_eq_countP (self : String) (l : List ghaStatus) :
    (validateLoop self l).2.2
      = l.countP (fun g => g.Job == self || g.State == successState) := by
  induction l with
  | nil => rfl
  | cons g rest ih =>
    by_cases h : g.Job = self
    · simp [validateLoop, h, List.countP_cons, ih]
    · by_cases hs : g.State = successState
      · simp [validateLoop, h, hs, List.countP_cons, ih]
      · simp [validateLoop, h, hs, List.countP_cons, ih]

/-- `succeeded` holds iff every non-self job is in state `success`. -/
lemma buildStatus_succeeded_iff (self : String) (l : List ghaStatus) :
    (buildStatus self l).succeeded = true
      ↔ ∀ g ∈ l, g.Job ≠ self → g.State = successState := by
  have hcnt := validateLoop_cnt_eq_countP self l
  simp only [buildStatus, hcnt, beq_iff_eq]
  rw [eq_comm, List.countP_eq_length]
  constructor
  · intro h g hg hne
    have := h g hg
    simp only [Bool.or_eq_true, beq_iff_eq] at this
    exact this.resolve_left hne
  · intro h g hg
    simp only [Bool.or_eq_true, beq_iff_eq]
    by_cases hne : g.Job = self
    · exact Or.inl hne
    · exact Or.inr (h g hg hne)

/-- `totalJobs` is the in-order list of non-self job names. -/
lemma validateLoop_total_eq (self : String) (l : List ghaStatus) :
    (validateLoop self l).1
      = (l.filter (fun g => g.Job != self)).map (fun g => g.Job) := by
  induction l with
  | nil => rfl
  | cons g rest ih =>
    by_cases h : g.Job = self
    · simp [validateLoop, h, ih]
    · by_cases hs : g.State = successState
      · simp [validateLoop, h, hs, ih]
      · simp [validateLoop, h, hs, ih]

/-- `completeJobs` is the in-order list of non-self job names in state
`success`. -/
lemma validateLoop_complete_eq (self : String) (l : List ghaStatus) :
    (validateLoop self l).2.1
      = (l.filter (fun g => g.Job != self && g.State == successState)).map
          (fun g => g.Job) := by
  induction l with
  | nil => rfl
  | cons g rest ih =>
    by_cases h : g.Job = self
    · simp [validateLoop, h, ih]
    · by_cases hs : g.State = successState
      · simp [validateLoop, h, hs, ih]
      · simp [validateLoop, h, hs, ih]

/-- `completeJobs` is a subsequence of `totalJobs`. -/
lemma validateLoop_complete_sublist (self : String) (l : List ghaStatus) :
    List.Sublist (validateLoop self l).2.1 (validateLoop self l).1 := by
  induction l with
  | nil => simp [validateLoop]
  | cons g rest ih =>
    by_cases h : g.Job = self
    · simpa [validateLoop, h] using ih
    · by_cases hs : g.State = successState
      · simpa [validateLoop, h, hs] using List.Sublist.cons₂ g.Job ih
      · simpa [validateLoop, h, hs] using List.Sublist.cons g.Job ih

/-! ### Helper lemmas about the fetch loops -/

/-- A successful combined-status loop is the in-order entry-wise
translation, dropping nothing. -/
lemma combinedLoop_ok (c : List RepoStatus) (l : List ghaStatus)
    (h : combinedLoop c = .ok l) :
    l = c.filterMap mapCombinedEntry ∧ l.length = c.length := by
  induction c generalizing l with
  | nil =>
    simp only [combinedLoop, FetchOutcome.ok.injEq] at h
    simp [← h]
  | cons s rest ih =>
    cases hc : s.context with
    | none => simp [combinedLoop, hc] at h
    | some cv =>
      cases hs : s.state with
      | none => simp [combinedLoop, hc, hs] at h
      | some sv =>
        cases hr : combinedLoop rest with
        | ok l' =>
          simp only [combinedLoop, hc, hs, hr, FetchOutcome.ok.injEq] at h
          obtain ⟨h1, h2⟩ := ih l' hr
          subst h
          refine ⟨?_, ?_⟩
          · simp [List.filterMap_cons, mapCombinedEntry, hc, hs, h1]
          · simp [h2]
        | errCombined a b => simp [combinedLoop, hc, hs, hr] at h
        | errCheckRun a b => simp [combinedLoop, hc, hs, hr] at h
        | panicNilConclusion n => simp [combinedLoop, hc, hs, hr] at h

/-- The combined-status loop returns either a job list or the tagged
combined-status error. -/
lemma combinedLoop_shapes (c : List RepoStatus) :
    (∃ l, combinedLoop c = .ok l) ∨ (∃ a b, combinedLoop c = .errCombined a b) := by
  induction c with
  | nil => exact Or.inl ⟨[], rfl⟩
  | cons s rest ih =>
    cases hc : s.context with
    | none => exact Or.inr ⟨none, s.state, by simp [combinedLoop, hc]⟩
    | some cv =>
      cases hs : s.state with
      | none => exact Or.inr ⟨some cv, none, by simp [combinedLoop, hc, hs]⟩
      | some sv =>
        rcases ih with ⟨l, hl⟩ | ⟨a, b, hab⟩
        · exact Or.inl ⟨{ Job := cv, State := sv } :: l,
            by simp [combinedLoop, hc, hs, hl]⟩
        · exact Or.inr ⟨a, b, by simp [combinedLoop, hc, hs, hab]⟩

/-- A successful combined-status loop implies every entry was complete. -/
lemma combinedLoop_ok_present (c : List RepoStatus) (l : List ghaStatus)
    (h : combinedLoop c = .ok l) :
    ∀ s ∈ c, s.context ≠ none ∧ s.state ≠ none := by
  induction c generalizing l with
  | nil => intro s hs; cases hs
  | cons s rest ih =>
    intro t ht
    cases hc : s.context with
    | none => simp [combinedLoop, hc] at h
    | some cv =>
      cases hs : s.state with
      | none => simp [combinedLoop, hc, hs] at h
      | some sv =>
        cases hr : combinedLoop rest with
        | ok l' =>
          rcases List.mem_cons.mp ht with rfl | ht
          · simp [hc, hs]
          · exact ih l' hr t ht
        | errCombined a b => simp [combinedLoop, hc, hs, hr] at h
        | errCheckRun a b => simp [combinedLoop, hc, hs, hr] at h
        | panicNilConclusion n => simp [combinedLoop, hc, hs, hr] at h

/-- Characterization of the panic path of `normalizeRun`: it fires exactly
on a present name, status `"completed"` and an absent conclusion. -/
lemma normalizeRun_panic (r : CheckRun) (n : String)
    (h : normalizeRun r = .panic n) :
    r.name = some n ∧ r.status = some checkRunCompletedStatus ∧
      r.conclusion = none := by
  obtain ⟨nm, st, con⟩ := r
  cases nm with
  | none => simp [normalizeRun] at h
  | some nv =>
    cases st with
    | none => simp [normalizeRun] at h
    | some sv =>
      by_cases hsv : sv = checkRunCompletedStatus
      · subst hsv
        cases con with
        | none =>
          simp only [normalizeRun, ne_eq, not_true_eq_false, if_false,
            RunResult.panic.injEq] at h
          simp [h]
        | some cv =>
          by_cases hcv : cv = checkRunNeutralConclusion ∨ cv = checkRunSuccessConclusion
          · simp [normalizeRun, hcv] at h
          · simp [normalizeRun, hcv] at h
      · simp [normalizeRun, hsv] at h

/-- Every record produced by `normalizeRun` carries one of the three
states. -/
lemma normalizeRun_ok_state (r : CheckRun) (g : ghaStatus)
    (h : normalizeRun r = .ok g) :
    g.State = successState ∨ g.State = errorState ∨ g.State = pendingState := by
  obtain ⟨nm, st, con⟩ := r
  cases nm with
  | none => simp [normalizeRun] at h
  | some nv =>
    cases st with
    | none => simp [normalizeRun] at h
    | some sv =>
      by_cases hsv : sv = checkRunCompletedStatus
      · subst hsv
        cases con with
        | none =>
          simp [normalizeRun] at h
        | some cv =>
          by_cases hcv : cv = checkRunNeutralConclusion ∨ cv = checkRunSuccessConclusion
          · simp only [normalizeRun, ne_eq, not_true_eq_false, if_false, hcv,
              if_true, RunResult.ok.injEq] at h
            simp [← h]
          · simp only [normalizeRun, ne_eq, not_true_eq_false, if_false, hcv,
              if_false, RunResult.ok.injEq] at h
            simp [← h]
      · simp only [normalizeRun, ne_eq, hsv, not_false_eq_true, if_true,
          RunResult.ok.injEq] at h
        simp [← h]

/-- `normalizeRun` succeeds only on a present name and status. -/
lemma normalizeRun_ok_present (r : CheckRun) (g : ghaStatus)
    (h : normalizeRun r = .ok g) : r.name ≠ none ∧ r.status ≠ none := by
  obtain ⟨nm, st, con⟩ := r
  cases nm with
  | none => simp [normalizeRun] at h
  | some nv =>
    cases st with
    | none => simp [normalizeRun] at h
    | some sv => simp

/-- The error path of `normalizeRun` fires exactly on a missing name or
status, and reports the observed values. -/
lemma normalizeRun_err_iff (r : CheckRun) :
    (normalizeRun r = .err r.name r.status) ↔ (r.name = none ∨ r.status = none) := by
  obtain ⟨nm, st, con⟩ := r
  cases nm with
  | none => simp [normalizeRun]
  | some nv =>
    cases st with
    | none => simp [normalizeRun]
    | some sv =>
      simp only [Option.some.injEq, reduceCtorEq, or_self, iff_false]
      by_cases hsv : sv = checkRunCompletedStatus
      · subst hsv
        cases con with
        | none => simp [normalizeRun]
        | some cv =>
          by_cases hcv : cv = checkRunNeutralConclusion ∨ cv = checkRunSuccessConclusion
          · simp [normalizeRun, hcv]
          · simp [normalizeRun, hcv]
      · simp [normalizeRun, hsv]

/-- A successful check-run loop is the in-order entry-wise translation,
dropping nothing. -/
lemma runsLoop_ok (rs : List CheckRun) (l : List ghaStatus)
    (h : runsLoop rs = .ok l) :
    l = rs.filterMap mapRunEntry ∧ l.length = rs.length := by
  induction rs generalizing l with
  | nil =>
    simp only [runsLoop, FetchOutcome.ok.injEq] at h
    simp [← h]
  | cons run rest ih =>
    cases hn : normalizeRun run with
    | ok g =>
      cases hr : runsLoop rest with
      | ok l' =>
        simp only [runsLoop, hn, hr, FetchOutcome.ok.injEq] at h
        obtain ⟨h1, h2⟩ := ih l' hr
        subst h
        refine ⟨?_, ?_⟩
        · simp [List.filterMap_cons, mapRunEntry, hn, h1]
        · simp [h2]
      | errCombined a b => simp [runsLoop, hn, hr] at h
      | errCheckRun a b => simp [runsLoop, hn, hr] at h
      | panicNilConclusion n => simp [runsLoop, hn, hr] at h
    | err a b => simp [runsLoop, hn] at h
    | panic n => simp [runsLoop, hn] at h

/-- The check-run loop returns a job list, the tagged check-run error, or
the nil-conclusion panic — never the combined-status error. -/
lemma runsLoop_shapes (rs : List CheckRun) :
    (∃ l, runsLoop rs = .ok l) ∨ (∃ a b, runsLoop rs = .errCheckRun a b)
      ∨ (∃ n, runsLoop rs = .panicNilConclusion n) := by
  induction rs with
  | nil => exact Or.inl ⟨[], rfl⟩
  | cons run rest ih =>
    cases hn : normalizeRun run with
    | ok g =>
      rcases ih with ⟨l, hl⟩ | ⟨a, b, hab⟩ | ⟨n, hn'⟩
      · exact Or.inl ⟨g :: l, by simp [runsLoop, hn, hl]⟩
      · exact Or.inr (Or.inl ⟨a, b, by simp [runsLoop, hn, hab]⟩)
      · exact Or.inr (Or.inr ⟨n, by simp [runsLoop, hn, hn']⟩)
    | err a b => exact Or.inr (Or.inl ⟨a, b, by simp [runsLoop, hn]⟩)
    | panic n => exact Or.inr (Or.inr ⟨n, by simp [runsLoop, hn]⟩)

/-- A successful check-run loop implies every entry had name and status. -/
lemma runsLoop_ok_present (rs : List CheckRun) (l : List ghaStatus)
    (h : runsLoop rs = .ok l) :
    ∀ r ∈ rs, r.name ≠ none ∧ r.status ≠ none := by
  induction rs generalizing l with
  | nil => intro r hr; cases hr
  | cons run rest ih =>
    intro r hr
    cases hn : normalizeRun run with
    | ok g =>
      cases hrest : runsLoop rest with
      | ok l' =>
        rcases List.mem_cons.mp hr with rfl | hr
        · exact normalizeRun_ok_present r g hn
        · exact ih l' hrest r hr
      | errCombined a b => simp [runsLoop, hn, hrest] at h
      | errCheckRun a b => simp [runsLoop, hn, hrest] at h
      | panicNilConclusion n => simp [runsLoop, hn, hrest] at h
    | err a b => simp [runsLoop, hn] at h
    | panic n => simp [runsLoop, hn] at h

/-- Under the implicit precondition — every completed check run carries a
conclusion — the check-run loop never reaches the nil-pointer panic. -/
lemma runsLoop_no_panic (rs : List CheckRun)
    (hpre : ∀ r ∈ rs, r.status = some checkRunCompletedStatus → r.conclusion ≠ none) :
    ∀ n, runsLoop rs ≠ .panicNilConclusion n := by
  induction rs with
  | nil => intro n h; simp [runsLoop] at h
  | cons run rest ih =>
    intro n h
    cases hn : normalizeRun run with
    | ok g =>
      cases hrest : runsLoop rest with
      | ok l' => simp [runsLoop, hn, hrest] at h
      | errCombined a b => simp [runsLoop, hn, hrest] at h
      | errCheckRun a b => simp [runsLoop, hn, hrest] at h
      | panicNilConclusion n' =>
        exact ih (fun r hr => hpre r (List.mem_cons_of_mem run hr)) n' hrest
    | err a b => simp [runsLoop, hn] at h
    | panic n' =>
      obtain ⟨-, hst, hcon⟩ := normalizeRun_panic run n' hn
      exact hpre run (List.mem_cons_self run rest) hst hcon

/-- Decomposition of a successful fetch into its two loops. -/
lemma listGhaStatuses_ok (c : List RepoStatus) (rs : List CheckRun)
    (l : List ghaStatus) (h : listGhaStatuses c rs = .ok l) :
    ∃ l1 l2, combinedLoop c = .ok l1 ∧ runsLoop rs = .ok l2 ∧ l = l1 ++ l2 := by
  cases h1 : combinedLoop c with
  | ok l1 =>
    cases h2 : runsLoop rs with
    | ok l2 =>
      simp only [listGhaStatuses, h1, h2, FetchOutcome.ok.injEq] at h
      exact ⟨l1, l2, rfl, rfl, h.symm⟩
    | errCombined a b => simp [listGhaStatuses, h1, h2] at h
    | errCheckRun a b => simp [listGhaStatuses, h1, h2] at h
    | panicNilConclusion n => simp [listGhaStatuses, h1, h2] at h
  | errCombined a b => simp [listGhaStatuses, h1] at h
  | errCheckRun a b => simp [listGhaStatuses, h1] at h
  | panicNilConclusion n => simp [listGhaStatuses, h1] at h

/-- The combined-status error is only reported when some entry misses a
field. -/
lemma combinedLoop_err (c : List RepoStatus) :
    ∀ a b, combinedLoop c = .errCombined a b →
      ∃ s ∈ c, s.context = none ∨ s.state = none := by
  induction c with
  | nil => intro a b h; simp [combinedLoop] at h
  | cons s rest ih =>
    intro a b h
    cases hc : s.context with
    | none => exact ⟨s, List.mem_cons_self s rest, Or.inl hc⟩
    | some cv =>
      cases hs : s.state with
      | none => exact ⟨s, List.mem_cons_self s rest, Or.inr hs⟩
      | some sv =>
        cases hr : combinedLoop rest with
        | ok l' => simp [combinedLoop, hc, hs, hr] at h
        | errCombined a' b' =>
          obtain ⟨t, ht, hbad⟩ := ih a' b' hr
          exact ⟨t, List.mem_cons_of_mem s ht, hbad⟩
        | errCheckRun a' b' => simp [combinedLoop, hc, hs, hr] at h
        | panicNilConclusion n => simp [combinedLoop, hc, hs, hr] at h

/-! ### Helper lemmas for counting and construction -/

/-- A string has length zero exactly when it is the empty string. -/
lemma string_length_eq_zero_iff (s : String) : s.length = 0 ↔ s = "" := by
  cases s with
  | mk data =>
    show data.length = 0 ↔ _
    rw [List.length_eq_zero]
    constructor
    · rintro rfl; rfl
    · intro h; simpa using congrArg String.data h

/-- Two distinct members both satisfying a predicate force a count of at
least two. -/
lemma two_le_countP {α : Type} (p : α → Bool) (a b : α) (hab : a ≠ b)
    (hpa : p a = true) (hpb : p b = true) :
    ∀ l : List α, a ∈ l → b ∈ l → 2 ≤ l.countP p := by
  intro l
  induction l with
  | nil => intro ha; cases ha
  | cons x t ih =>
    intro ha hb
    rcases List.mem_cons.mp ha with rfl | ha'
    · have hb' : b ∈ t := by
        rcases List.mem_cons.mp hb with h | h
        · exact absurd h.symm hab
        · exact h
      have h1 : 0 < t.countP p := List.countP_pos_iff.mpr ⟨b, hb', hpb⟩
      rw [List.countP_cons]
      simp only [hpa, if_pos]
      omega
    · rcases List.mem_cons.mp hb with rfl | hb'
      · have h1 : 0 < t.countP p := List.countP_pos_iff.mpr ⟨a, ha', hpa⟩
        rw [List.countP_cons]
        simp only [hpb, if_pos]
        omega
      · have h2 := ih ha' hb'
        rw [List.countP_cons]
        omega

/-- Counting a name among mapped-out job names is counting the records that
carry it. -/
lemma count_map_job (name : String) (m : List ghaStatus) :
    (m.map (fun g => g.Job)).count name = m.countP (fun g => g.Job == name) := by
  induction m with
  | nil => rfl
  | cons g t ih =>
    simp only [List.map_cons, List.count_cons, List.countP_cons, ih]

/-- Joint characterization of `validateFields`: it is empty exactly when all
five required fields are present, and its length is the number of violated
conditions. -/
lemma validateFields_characterization (sv : statusValidator) :
    (validateFields sv = []
      ↔ (sv.repo ≠ "" ∧ sv.owner ≠ "" ∧ sv.ref ≠ "" ∧ sv.selfJobName ≠ ""
          ∧ sv.clientPresent = true))
    ∧ (validateFields sv).length
        = (if sv.repo = "" then 1 else 0) + (if sv.owner = "" then 1 else 0)
          + (if sv.ref = "" then 1 else 0) + (if sv.selfJobName = "" then 1 else 0)
          + (if sv.clientPresent = true then 0 else 1) := by
  obtain ⟨r, o, rf, sj, cp⟩ := sv
  simp only [validateFields]
  by_cases h1 : r = "" <;> by_cases h2 : o = "" <;> by_cases h3 : rf = "" <;>
    by_cases h4 : sj = "" <;> cases cp <;>
    simp [h1, h2, h3, h4, string_length_eq_zero_iff]

/-! ### Claim theorems -/

/-- C1: `Validate` returns `succeeded = true` iff the success tally — every
self-named job plus every non-self job in state `success` — equals the total
number of fetched jobs; a fetch returning zero jobs yields `succeeded = true`
with `totalJobs` and `completeJobs` both empty. -/
theorem C1_succeeded_iff_tally (self : String) (l : List ghaStatus)
    (combined : List RepoStatus) (runs : List CheckRun)
    (hz : listGhaStatuses combined runs = .ok []) :
    ((buildStatus self l).succeeded = true ↔
      l.countP (fun g => g.Job == self || (g.Job != self && g.State == successState))
        = l.length)
    ∧ Validate self combined runs
        = .ok { totalJobs := [], completeJobs := [], succeeded := true } := by
  constructor
  · have hp : ∀ g ∈ l,
        (g.Job == self || (g.Job != self && g.State == successState)) = true
          ↔ (g.Job == self || g.State == successState) = true := by
      intro g _
      by_cases hb : g.Job = self <;> simp [hb]
    rw [List.countP_congr hp]
    simp only [buildStatus, validateLoop_cnt_eq_countP, beq_iff_eq]
    exact eq_comm
  · simp only [Validate, hz]
    rfl

/-- Witness for C1 at a concrete input. -/
theorem C1_succeeded_iff_tally_witness :
    (((buildStatus "g" [{ Job := "a", State := "success" }]).succeeded = true ↔
      List.countP
        (fun (g : ghaStatus) =>
          g.Job == "g" || (g.Job != "g" && g.State == successState))
        [{ Job := "a", State := "success" }]
        = List.length [({ Job := "a", State := "success" } : ghaStatus)])
    ∧ Validate "g" [] []
        = .ok { totalJobs := [], completeJobs := [], succeeded := true }) :=
  C1_succeeded_iff_tally "g" [{ Job := "a", State := "success" }] [] [] rfl

/-- C2: a fetched job named like the configured self job is never added to
`totalJobs`, bumps the success tally regardless of its state, and can never
be the cause of `succeeded = false` (dropping all self-named jobs leaves the
verdict unchanged). -/
theorem C2_self_job_excluded (self : String) (l : List ghaStatus)
    (g : ghaStatus) (hg : g.Job = self) :
    self ∉ (buildStatus self l).totalJobs
    ∧ (validateLoop self (g :: l)).2.2 = (validateLoop self l).2.2 + 1
    ∧ (buildStatus self l).succeeded
        = (buildStatus self (l.filter (fun x => x.Job != self))).succeeded := by
  refine ⟨?_, ?_, ?_⟩
  · simp only [buildStatus, validateLoop_total_eq, List.mem_map,
      List.mem_filter, not_exists]
    rintro x ⟨⟨-, hx⟩, hx'⟩
    rw [hx'] at hx
    simp at hx
  · simp [validateLoop, hg]
  · rw [Bool.eq_iff_iff, buildStatus_succeeded_iff, buildStatus_succeeded_iff]
    constructor
    · intro h x hx hnx
      exact h x (List.mem_filter.mp hx).1 hnx
    · intro h x hx hnx
      exact h x (List.mem_filter.mpr ⟨hx, by simpa using hnx⟩) hnx

/-- Witness for C2 at a concrete input. -/
theorem C2_self_job_excluded_witness :
    "gk" ∉ (buildStatus "gk" [{ Job := "a", State := "pending" }]).totalJobs
    ∧ (validateLoop "gk"
        ({ Job := "gk", State := "error" } :: [{ Job := "a", State := "pending" }])).2.2
        = (validateLoop "gk" [{ Job := "a", State := "pending" }]).2.2 + 1
    ∧ (buildStatus "gk" [{ Job := "a", State := "pending" }]).succeeded
        = (buildStatus "gk"
            ([{ Job := "a", State := "pending" }].filter
              (fun x => x.Job != "gk"))).succeeded :=
  C2_self_job_excluded "gk" [{ Job := "a", State := "pending" }]
    { Job := "gk", State := "error" } rfl

/-- C3: a check-run entry with present name and status normalizes to
`pending` whenever its status is not `"completed"` (whatever its conclusion);
when its status is `"completed"`, conclusion `neutral` or `success` gives
state `success` and any other conclusion gives state `error`. -/
theorem C3_check_run_normalization (r : CheckRun) (n st : String)
    (hn : r.name = some n) (hs : r.status = some st) :
    (st ≠ checkRunCompletedStatus →
      normalizeRun r = .ok { Job := n, State := pendingState })
    ∧ (∀ c, st = checkRunCompletedStatus → r.conclusion = some c →
        normalizeRun r = .ok ⟨n,
          if c = checkRunNeutralConclusion ∨ c = checkRunSuccessConclusion
          then successState else errorState⟩) := by
  obtain ⟨nm, stf, con⟩ := r
  simp only at hn hs
  subst hn hs
  constructor
  · intro hne
    simp [normalizeRun, hne]
  · intro c hc hcon
    simp only at hcon
    subst hc hcon
    by_cases hcv : c = checkRunNeutralConclusion ∨ c = checkRunSuccessConclusion
    · simp [normalizeRun, hcv]
    · simp [normalizeRun, hcv]

/-- Witness for C3 at a concrete input. -/
theorem C3_check_run_normalization_witness :
    ("in_progress" ≠ checkRunCompletedStatus →
      normalizeRun { name := some "b", status := some "in_progress", conclusion := none }
        = .ok { Job := "b", State := pendingState })
    ∧ (∀ c, "in_progress" = checkRunCompletedStatus →
        ({ name := some "b", status := some "in_progress", conclusion := none } :
          CheckRun).conclusion = some c →
        normalizeRun { name := some "b", status := some "in_progress", conclusion := none }
          = .ok ⟨"b",
            if c = checkRunNeutralConclusion ∨ c = checkRunSuccessConclusion
            then successState else errorState⟩) :=
  C3_check_run_normalization
    { name := some "b", status := some "in_progress", conclusion := none }
    "b" "in_progress" rfl rfl

/-- C6 as stated is false on the code: a fetch whose only job is the self
job in state `pending` yields `succeeded = true` although that fetched job
did not report `success`. -/
theorem C6_counterexample :
    Validate "gate" [{ context := some "gate", state := some pendingState }] []
      = .ok { totalJobs := [], completeJobs := [], succeeded := true }
    ∧ pendingState ≠ successState := by
  refine ⟨by decide, by decide⟩

/-- C6 amended: the `succeeded` flag is true iff every fetched job other
than the self job reported state `success` (the self job's state is
ignored). -/
theorem C6_succeeded_iff_nonself_success (self : String) (l : List ghaStatus) :
    (buildStatus self l).succeeded = true
      ↔ ∀ g ∈ l, g.Job ≠ self → g.State = successState :=
  buildStatus_succeeded_iff self l

/-- C4 as stated is false on the code: with a completed check run carrying
no conclusion ahead of a check run lacking its status, the fetch ends in the
nil-conclusion panic, not in the tagged invalid-check-run error. -/
theorem C4_counterexample :
    Validate "g" []
      [{ name := some "a", status := some "completed", conclusion := none },
        { name := some "b", status := none, conclusion := some "x" }]
      = .panicNilConclusion "a"
    ∧ ValidateOutcome.isTaggedError
        (Validate "g" []
          [{ name := some "a", status := some "completed", conclusion := none },
            { name := some "b", status := none, conclusion := some "x" }])
        = false
    ∧ ({ name := some "b", status := none, conclusion := some "x" } : CheckRun).status
        = none := by
  refine ⟨by decide, by decide, rfl⟩

/-- C4 amended: provided every completed check run carries a conclusion (the
unstated precondition of the nil dereference), a fetch with a malformed
combined-status entry fails with the tagged combined-status error, a fetch
whose combined entries are fine but with a malformed check-run entry fails
with the tagged check-run error, and in the presence of any malformed entry
`Validate` never returns a result. -/
theorem C4_tagged_error_on_malformed (self : String) (combined : List RepoStatus)
    (runs : List CheckRun)
    (hpre : ∀ r ∈ runs, r.status = some checkRunCompletedStatus → r.conclusion ≠ none) :
    ((∃ s ∈ combined, s.context = none ∨ s.state = none) →
      ∃ a b, Validate self combined runs = .errCombined a b)
    ∧ ((∀ s ∈ combined, s.context ≠ none ∧ s.state ≠ none) →
      (∃ r ∈ runs, r.name = none ∨ r.status = none) →
      ∃ a b, Validate self combined runs = .errCheckRun a b)
    ∧ (((∃ s ∈ combined, s.context = none ∨ s.state = none)
          ∨ (∃ r ∈ runs, r.name = none ∨ r.status = none)) →
      ∀ st, Validate self combined runs ≠ .ok st) := by
  refine ⟨?_, ?_, ?_⟩
  · rintro ⟨s, hsmem, hbad⟩
    rcases combinedLoop_shapes combined with ⟨lc, hlc⟩ | ⟨a, b, hab⟩
    · obtain ⟨h1, h2⟩ := combinedLoop_ok_present combined lc hlc s hsmem
      rcases hbad with hb | hb
      · exact absurd hb h1
      · exact absurd hb h2
    · exact ⟨a, b, by simp [Validate, listGhaStatuses, hab]⟩
  · rintro hall ⟨r, hrmem, hbad⟩
    rcases combinedLoop_shapes combined with ⟨lc, hlc⟩ | ⟨a, b, hab⟩
    · rcases runsLoop_shapes runs with ⟨lr, hlr⟩ | ⟨a, b, hab⟩ | ⟨n, hn⟩
      · obtain ⟨h1, h2⟩ := runsLoop_ok_present runs lr hlr r hrmem
        rcases hbad with hb | hb
        · exact absurd hb h1
        · exact absurd hb h2
      · exact ⟨a, b, by simp [Validate, listGhaStatuses, hlc, hab]⟩
      · exact absurd hn (runsLoop_no_panic runs hpre n)
    · obtain ⟨s, hsmem, hbad'⟩ := combinedLoop_err combined a b hab
      obtain ⟨h1, h2⟩ := hall s hsmem
      rcases hbad' with hb | hb
      · exact absurd hb h1
      · exact absurd hb h2
  · intro hbad st hok
    cases hcl : combinedLoop combined with
    | ok l1 =>
      cases hrl : runsLoop runs with
      | ok l2 =>
        rcases hbad with ⟨s, hsmem, hb⟩ | ⟨r, hrmem, hb⟩
        · obtain ⟨h1, h2⟩ := combinedLoop_ok_present combined l1 hcl s hsmem
          rcases hb with hb | hb
          · exact absurd hb h1
          · exact absurd hb h2
        · obtain ⟨h1, h2⟩ := runsLoop_ok_present runs l2 hrl r hrmem
          rcases hb with hb | hb
          · exact absurd hb h1
          · exact absurd hb h2
      | errCombined a b => simp [Validate, listGhaStatuses, hcl, hrl] at hok
      | errCheckRun a b => simp [Validate, listGhaStatuses, hcl, hrl] at hok
      | panicNilConclusion n => simp [Validate, listGhaStatuses, hcl, hrl] at hok
    | errCombined a b => simp [Validate, listGhaStatuses, hcl] at hok
    | errCheckRun a b => simp [Validate, listGhaStatuses, hcl] at hok
    | panicNilConclusion n => simp [Validate, listGhaStatuses, hcl] at hok

/-- Witness for the amended C4 at a concrete input. -/
theorem C4_tagged_error_on_malformed_witness :
    ((∃ s ∈ [({ context := none, state := some "s" } : RepoStatus)],
        s.context = none ∨ s.state = none) →
      ∃ a b, Validate "g" [{ context := none, state := some "s" }] []
        = .errCombined a b)
    ∧ ((∀ s ∈ [({ context := none, state := some "s" } : RepoStatus)],
        s.context ≠ none ∧ s.state ≠ none) →
      (∃ r ∈ ([] : List CheckRun), r.name = none ∨ r.status = none) →
      ∃ a b, Validate "g" [{ context := none, state := some "s" }] []
        = .errCheckRun a b)
    ∧ (((∃ s ∈ [({ context := none, state := some "s" } : RepoStatus)],
          s.context = none ∨ s.state = none)
        ∨ (∃ r ∈ ([] : List CheckRun), r.name = none ∨ r.status = none)) →
      ∀ st, Validate "g" [{ context := none, state := some "s" }] [] ≠ .ok st) :=
  C4_tagged_error_on_malformed "g" [{ context := none, state := some "s" }] []
    (by simp)

/-- C5: `CreateValidator` yields a validator iff, after the options are
applied, all five of repo, owner, ref, selfJobName and client are present;
otherwise it fails with an error collecting one violation per violated
condition. -/
theorem C5_create_validator (cp : Bool) (opts : List SVOption) :
    ((∃ v, CreateValidator cp opts = .ok v)
      ↔ ((applyOptions cp opts).repo ≠ "" ∧ (applyOptions cp opts).owner ≠ ""
          ∧ (applyOptions cp opts).ref ≠ ""
          ∧ (applyOptions cp opts).selfJobName ≠ ""
          ∧ (applyOptions cp opts).clientPresent = true))
    ∧ (∀ es, CreateValidator cp opts = .error es →
        es.length
          = (if (applyOptions cp opts).repo = "" then 1 else 0)
            + (if (applyOptions cp opts).owner = "" then 1 else 0)
            + (if (applyOptions cp opts).ref = "" then 1 else 0)
            + (if (applyOptions cp opts).selfJobName = "" then 1 else 0)
            + (if (applyOptions cp opts).clientPresent = true then 0 else 1)) := by
  obtain ⟨hiff, hlen⟩ := validateFields_characterization (applyOptions cp opts)
  constructor
  · cases hv : validateFields (applyOptions cp opts) with
    | nil =>
      simp only [CreateValidator, hv]
      constructor
      · intro _
        exact hiff.mp hv
      · intro _
        exact ⟨applyOptions cp opts, rfl⟩
    | cons e t =>
      simp only [CreateValidator, hv]
      constructor
      · rintro ⟨v, hv'⟩
        simp at hv'
      · intro hcond
        have hnil := hiff.mpr hcond
        rw [hv] at hnil
        simp at hnil
  · intro es hes
    cases hv : validateFields (applyOptions cp opts) with
    | nil => simp [CreateValidator, hv] at hes
    | cons e t =>
      simp only [CreateValidator, hv, Except.error.injEq] at hes
      rw [← hes, ← hv]
      exact hlen

/-- C7 as stated is false on the code: a combined-status entry carrying an
arbitrary upstream state string is normalized with that string unchanged,
producing a `State` outside the three-value enum. -/
theorem C7_counterexample :
    listGhaStatuses [{ context := some "job", state := some "weird" }] []
      = .ok [{ Job := "job", State := "weird" }]
    ∧ ("weird" ≠ successState ∧ "weird" ≠ errorState ∧ "weird" ≠ pendingState) := by
  refine ⟨by decide, by decide, by decide, by decide⟩

/-- C7 amended: every job record produced from a check-run entry carries one
of the three states, and the closed-enum invariant for a whole fetch holds
exactly under the extra hypothesis that every combined-status state string
is itself one of the three (that path copies the upstream string
unchanged). -/
theorem C7_closed_enum_amended (combined : List RepoStatus) (runs : List CheckRun)
    (l : List ghaStatus) (g : ghaStatus)
    (hc : ∀ s ∈ combined, ∀ st, s.state = some st →
      st = successState ∨ st = errorState ∨ st = pendingState)
    (h : listGhaStatuses combined runs = .ok l) (hg : g ∈ l) :
    g.State = successState ∨ g.State = errorState ∨ g.State = pendingState := by
  obtain ⟨l1, l2, h1, h2, rfl⟩ := listGhaStatuses_ok combined runs l h
  rcases List.mem_append.mp hg with hgm | hgm
  · obtain ⟨he, -⟩ := combinedLoop_ok combined l1 h1
    subst he
    obtain ⟨s, hs, hmap⟩ := List.mem_filterMap.mp hgm
    cases hcx : s.context with
    | none => simp [mapCombinedEntry, hcx] at hmap
    | some cv =>
      cases hst : s.state with
      | none => simp [mapCombinedEntry, hcx, hst] at hmap
      | some sv =>
        simp only [mapCombinedEntry, hcx, hst, Option.some.injEq] at hmap
        subst hmap
        exact hc s hs sv hst
  · obtain ⟨he, -⟩ := runsLoop_ok runs l2 h2
    subst he
    obtain ⟨r, hr, hmap⟩ := List.mem_filterMap.mp hgm
    cases hn : normalizeRun r with
    | ok g' =>
      simp only [mapRunEntry, hn, Option.some.injEq] at hmap
      subst hmap
      exact normalizeRun_ok_state r g' hn
    | err a b => simp [mapRunEntry, hn] at hmap
    | panic n => simp [mapRunEntry, hn] at hmap

/-- Witness for the amended C7 at a concrete input. -/
theorem C7_closed_enum_amended_witness :
    ({ Job := "t", State := "success" } : ghaStatus).State = successState
    ∨ ({ Job := "t", State := "success" } : ghaStatus).State = errorState
    ∨ ({ Job := "t", State := "success" } : ghaStatus).State = pendingState :=
  C7_closed_enum_amended []
    [{ name := some "t", status := some "completed", conclusion := some "success" }]
    [{ Job := "t", State := "success" }] { Job := "t", State := "success" }
    (by simp) (by decide) (by simp)

/-- C8: a successful fetch is the combined-status entries first and then
the check-run entries, each in upstream order and none dropped; `totalJobs`
lists the non-self job names in that order, `completeJobs` the successful
ones in the same relative order, and `completeJobs` is a subsequence of
`totalJobs`. -/
theorem C8_order_and_subsequence (self : String) (combined : List RepoStatus)
    (runs : List CheckRun) (l : List ghaStatus)
    (h : listGhaStatuses combined runs = .ok l) :
    (l = combined.filterMap mapCombinedEntry ++ runs.filterMap mapRunEntry
      ∧ l.length = combined.length + runs.length)
    ∧ (buildStatus self l).totalJobs
        = (l.filter (fun g => g.Job != self)).map (fun g => g.Job)
    ∧ (buildStatus self l).completeJobs
        = (l.filter (fun g => g.Job != self && g.State == successState)).map
            (fun g => g.Job)
    ∧ List.Sublist (buildStatus self l).completeJobs
        (buildStatus self l).totalJobs := by
  obtain ⟨l1, l2, h1, h2, rfl⟩ := listGhaStatuses_ok combined runs l h
  obtain ⟨e1, n1⟩ := combinedLoop_ok combined l1 h1
  obtain ⟨e2, n2⟩ := runsLoop_ok runs l2 h2
  refine ⟨⟨by rw [← e1, ← e2], by simp [n1, n2]⟩, ?_, ?_, ?_⟩
  · simp only [buildStatus]
    exact validateLoop_total_eq self (l1 ++ l2)
  · simp only [buildStatus]
    exact validateLoop_complete_eq self (l1 ++ l2)
  · simp only [buildStatus]
    exact validateLoop_complete_sublist self (l1 ++ l2)

/-- Witness for C8 at a concrete input. -/
theorem C8_order_and_subsequence_witness :
    (([{ Job := "lint", State := "success" }, { Job := "t", State := "error" }] :
        List ghaStatus)
      = List.filterMap mapCombinedEntry
          [{ context := some "lint", state := some "success" }]
        ++ List.filterMap mapRunEntry
          [{ name := some "t", status := some "completed", conclusion := some "bad" }]
      ∧ ([{ Job := "lint", State := "success" }, { Job := "t", State := "error" }] :
          List ghaStatus).length
        = ([{ context := some "lint", state := some "success" }] :
            List RepoStatus).length
          + ([{ name := some "t", status := some "completed", conclusion := some "bad" }] :
              List CheckRun).length)
    ∧ (buildStatus "g"
        [{ Job := "lint", State := "success" }, { Job := "t", State := "error" }]).totalJobs
      = (([{ Job := "lint", State := "success" }, { Job := "t", State := "error" }] :
          List ghaStatus).filter (fun g => g.Job != "g")).map (fun g => g.Job)
    ∧ (buildStatus "g"
        [{ Job := "lint", State := "success" }, { Job := "t", State := "error" }]).completeJobs
      = (([{ Job := "lint", State := "success" }, { Job := "t", State := "error" }] :
          List ghaStatus).filter
            (fun g => g.Job != "g" && g.State == successState)).map (fun g => g.Job)
    ∧ List.Sublist
        (buildStatus "g"
          [{ Job := "lint", State := "success" }, { Job := "t", State := "error" }]).completeJobs
        (buildStatus "g"
          [{ Job := "lint", State := "success" }, { Job := "t", State := "error" }]).totalJobs :=
  C8_order_and_subsequence "g" [{ context := some "lint", state := some "success" }]
    [{ name := some "t", status := some "completed", conclusion := some "bad" }]
    [{ Job := "lint", State := "success" }, { Job := "t", State := "error" }]
    (by decide)

/-- C9: job names are not deduplicated — a name fetched once in state
`success` and once in state `pending` (and distinct from the self job)
appears at least twice in `totalJobs`, and the overall result has
`succeeded = false` although one occurrence succeeded. -/
theorem C9_duplicate_names (self name : String) (l : List ghaStatus)
    (hne : name ≠ self)
    (hsucc : ({ Job := name, State := successState } : ghaStatus) ∈ l)
    (hpend : ({ Job := name, State := pendingState } : ghaStatus) ∈ l) :
    2 ≤ ((buildStatus self l).totalJobs).count name
    ∧ (buildStatus self l).succeeded = false := by
  constructor
  · have htot : (buildStatus self l).totalJobs
        = (l.filter (fun g => g.Job != self)).map (fun g => g.Job) := by
      simp only [buildStatus]
      exact validateLoop_total_eq self l
    rw [htot, count_map_job, List.countP_filter]
    refine two_le_countP _ { Job := name, State := successState }
      { Job := name, State := pendingState } ?_ ?_ ?_ l hsucc hpend
    · simp [ghaStatus.mk.injEq, successState, pendingState]
    · simp [hne]
    · simp [hne]
  · rw [Bool.eq_false_iff]
    intro h
    have := (buildStatus_succeeded_iff self l).mp h
      { Job := name, State := pendingState } hpend (by simpa using hne)
    simp [pendingState, successState] at this

/-- Witness for C9 at a concrete input. -/
theorem C9_duplicate_names_witness :
    2 ≤ ((buildStatus "g"
        [{ Job := "a", State := successState },
          { Job := "a", State := pendingState }]).totalJobs).count "a"
    ∧ (buildStatus "g"
        [{ Job := "a", State := successState },
          { Job := "a", State := pendingState }]).succeeded = false :=
  C9_duplicate_names "g" "a"
    [{ Job := "a", State := successState }, { Job := "a", State := pendingState }]
    (by decide) (by simp) (by simp)

/-- C10: `Validate` has the unstated precondition that every completed
check run carries a present conclusion — on a completed run with an absent
conclusion the normalization hits the nil dereference, which is neither a
tagged error nor a state mapping; under the precondition the panic is
unreachable. -/
theorem C10_nil_conclusion_precondition :
    (Validate "g" []
        [{ name := some "a", status := some checkRunCompletedStatus, conclusion := none }]
        = .panicNilConclusion "a"
      ∧ ValidateOutcome.isTaggedError
          (Validate "g" []
            [{ name := some "a", status := some checkRunCompletedStatus, conclusion := none }])
          = false)
    ∧ (∀ (self : String) (combined : List RepoStatus) (runs : List CheckRun),
        (∀ r ∈ runs, r.status = some checkRunCompletedStatus → r.conclusion ≠ none) →
        ∀ n, Validate self combined runs ≠ .panicNilConclusion n) := by
  refine ⟨⟨by decide, by decide⟩, ?_⟩
  intro self combined runs hpre n h
  cases hcl : combinedLoop combined with
  | ok l1 =>
    cases hrl : runsLoop runs with
    | ok l2 => simp [Validate, listGhaStatuses, hcl, hrl] at h
    | errCombined a b => simp [Validate, listGhaStatuses, hcl, hrl] at h
    | errCheckRun a b => simp [Validate, listGhaStatuses, hcl, hrl] at h
    | panicNilConclusion n' => exact runsLoop_no_panic runs hpre n' hrl
  | errCombined a b => simp [Validate, listGhaStatuses, hcl] at h
  | errCheckRun a b => simp [Validate, listGhaStatuses, hcl] at h
  | panicNilConclusion n' =>
    rcases combinedLoop_shapes combined with ⟨lc, hlc⟩ | ⟨a, b, hab⟩
    · rw [hcl] at hlc
      simp at hlc
    · rw [hcl] at hab
      simp at hab

/-! ### End-to-end scenarios (spec §8), checked by evaluation -/

example : Validate "g" [⟨some "lint", some "success"⟩]
    [⟨some "test", some "completed", some "success"⟩]
    = .ok { totalJobs := ["lint", "test"], completeJobs := ["lint", "test"]
            succeeded := true } := by decide

example : Validate "g" [⟨some "lint", some "pending"⟩] []
    = .ok { totalJobs := ["lint"], completeJobs := [], succeeded := false } := by decide

example : Validate "g" [] [⟨some "build", some "in_progress", none⟩]
    = .ok { totalJobs := ["build"], completeJobs := [], succeeded := false } := by decide

example : Validate "g" [⟨none, some "success"⟩] []
    = .errCombined none (some "success") := by decide

example : Validate "g" [] [⟨some "a", some "completed", none⟩]
    = .panicNilConclusion "a" := by decide

example : Validate "g" [⟨some "g", some "pending"⟩] []
    = .ok { totalJobs := [], completeJobs := [], succeeded := true } := by decide

example : CreateValidator true [fun sv => { sv with repo := "r" }]
    = .error ["repository owner is empty", "reference of repository is empty",
              "self job name is empty"] := rfl
